import Mathlib

/-!
Shallow embedding of `model_forge.py` (PYModelForge): a generator that
inspects relational-schema metadata and emits SQLAlchemy model source text.

Schema metadata is modelled as immutable records mirroring what the
SQLAlchemy inspector hands the Python code: per table an ordered column
list, the primary-key constrained column list, and the foreign-key
descriptors. Strings are Lean `String`s; the Python functions that can
raise (`camel_case` indexes `s[0]`) return `Option`.
-/

namespace ModelForge

/-- A foreign-key descriptor, as returned by `inspector.get_foreign_keys`:
`constrained_columns`, `referred_table`, `referred_columns`. -/
structure FK where
  constrained_columns : List String
  referred_table : String
  referred_columns : List String
deriving DecidableEq, Repr

/-- A column record, as consumed by `generate_model` /
`generate_models_content`: name, raw type string (`str(col["type"])`),
nullable flag, primary-key flag, optional foreign-key target
(`target_fullname`, e.g. `users.id`). -/
structure Col where
  name : String
  typ : String
  nullable : Bool
  primary_key : Bool
  foreign_key : Option String
deriving DecidableEq, Repr

/-- One table of the schema snapshot: name, ordered columns, the
primary-key constraint's constrained columns, and the foreign keys. -/
structure Table where
  name : String
  columns : List Col
  pk_columns : List String
  fks : List FK
deriving DecidableEq, Repr

/-- The schema snapshot: tables in the inspector's enumeration order. -/
abbrev Schema := List Table

/-- `inspector.get_table_names()`. -/
def get_table_names (s : Schema) : List String :=
  s.map (·.name)

/-- Look a table up by name (the inspector keys every query by table name). -/
def findTable (s : Schema) (n : String) : Option Table :=
  s.find? (·.name == n)

/-- `inspector.get_pk_constraint(n)["constrained_columns"]`. -/
def get_pk_columns (s : Schema) (n : String) : List String :=
  ((findTable s n).map (·.pk_columns)).getD []

/-- `inspector.get_foreign_keys(n)`. -/
def get_foreign_keys (s : Schema) (n : String) : List FK :=
  ((findTable s n).map (·.fks)).getD []

/-- `inspector.get_columns(n)`. -/
def get_columns (s : Schema) (n : String) : List Col :=
  ((findTable s n).map (·.columns)).getD []

/-! ## Type Mapper (`get_column_type`) -/

/-- The SQLAlchemy type classes the generator imports; `typeName` below is
the `__name__` used in emitted code. -/
inductive SAType where
  | Integer
  | String
  | Float
  | DateTime
deriving DecidableEq, Repr

/-- `cls.__name__` of an `SAType`. -/
def typeName : SAType → String
  | .Integer => "Integer"
  | .String => "String"
  | .Float => "Float"
  | .DateTime => "DateTime"

/-- Python's `str.lower()`: lower-case every character. -/
def lowerStr (s : String) : String :=
  String.mk (s.toList.map Char.toLower)

/-- Does `needle` occur as a contiguous sublist of `hay`? -/
def isInfixCL (needle : List Char) : List Char → Bool
  | [] => needle.isEmpty
  | c :: rest => needle.isPrefixOf (c :: rest) || isInfixCL needle rest

/-- Python's `needle in hay` on strings: substring containment. -/
def strContains (hay needle : String) : Bool :=
  isInfixCL needle.toList hay.toList

/-- The `type_map` dict of `get_column_type`, in insertion order. -/
def type_map : List (String × SAType) :=
  [("integer", .Integer), ("bigint", .Integer), ("smallint", .Integer),
   ("varchar", .String), ("text", .String),
   ("float", .Float), ("real", .Float), ("numeric", .Float),
   ("datetime", .DateTime), ("timestamp", .DateTime), ("date", .DateTime)]

/-- `get_column_type`: lower-case the raw type string, scan `type_map` in
insertion order, return the first value whose key is a substring, default
`String`. (Takes the raw type string; the Python code reads it from the
column dict as `str(col["type"])`.) -/
def get_column_type (raw : String) : SAType :=
  let col_type := lowerStr raw
  ((type_map.find? (fun kv => strContains col_type kv.1)).map (·.2)).getD .String

/-! ## Identifier Normalizer (`camel_case`)

`camel_case(s)` is
`s = re.sub(r"([_\-])+", " ", s).title().replace(" ", "")` followed by
`"".join([s[0].upper(), s[1:]])`; the final step raises `IndexError` when
the intermediate string is empty, hence the `Option`. -/

/-- A character the regex `([_\-])+` matches. -/
def isSep (c : Char) : Bool :=
  c == '_' || c == '-'

/-- `re.sub(r"([_\-])+", " ", s)` on the character list, scanned with a
flag recording whether the previous character was a separator: the first
separator of a run becomes a single space, the rest of the run is
dropped. -/
def subSepsAux : Bool → List Char → List Char
  | _, [] => []
  | inRun, c :: rest =>
    if isSep c then
      if inRun then subSepsAux true rest
      else ' ' :: subSepsAux true rest
    else c :: subSepsAux false rest

/-- `re.sub(r"([_\-])+", " ", s)`: each maximal run of
underscores/hyphens becomes a single space. -/
def subSeps (l : List Char) : List Char :=
  subSepsAux false l

/-- `str.title()` on a character list: a cased (alphabetic) character is
upper-cased when the previous character is not cased, lower-cased when it
is; other characters pass through and reset the word. The flag records
whether the previous character was cased. -/
def titleAux : Bool → List Char → List Char
  | _, [] => []
  | prevCased, c :: rest =>
    if c.isAlpha then
      (if prevCased then c.toLower else c.toUpper) :: titleAux true rest
    else
      c :: titleAux false rest

/-- `str.title()`. -/
def title (l : List Char) : List Char :=
  titleAux false l

/-- `camel_case(s)`; `none` models the `IndexError` the Python code raises
on `s[0]` when the processed string is empty. -/
def camel_case (s : String) : Option String :=
  let t := (title (subSeps s.toList)).filter (fun c => c != ' ')
  match t with
  | [] => none
  | c :: rest => some (String.mk (c.toUpper :: rest))

/-! ## Association Classifier (`is_association_table`) -/

/-- Extensional equality of two lists viewed as sets; Python's
`set(l1) == set(l2)`. -/
def setEqCL (l1 l2 : List String) : Bool :=
  l1.all (l2.contains ·) && l2.all (l1.contains ·)

/-- `is_association_table(table_name, fks, inspector)`: exactly two foreign
keys, and the set of all foreign-key constrained columns equals the set of
primary-key constrained columns. -/
def is_association_table (s : Schema) (table_name : String) (fks : List FK) : Bool :=
  if fks.length != 2 then false
  else
    let pk_columns := get_pk_columns s table_name
    let fk_columns := fks.flatMap (·.constrained_columns)
    setEqCL pk_columns fk_columns

/-! ## Per-table relationship pass (`generate_relationships`) -/

/-- The loop body of `generate_relationships` for one foreign key: a bare
`relationship` when the single constrained column is outside the table's
own primary key, otherwise the `back_populates` form. `Option` because
`camel_case` can raise. -/
def relationship_line (s : Schema) (table_name : String) (fk : FK) : Option String := do
  let parent_table := fk.referred_table
  let parent_class ← camel_case parent_table
  let relationship_name := lowerStr parent_table
  let is_many_to_one :=
    match fk.constrained_columns with
    | [c] => !((get_pk_columns s table_name).contains c)
    | _ => false
  if is_many_to_one then
    pure (relationship_name ++ " = relationship('" ++ parent_class ++ "')")
  else
    let back_populates := lowerStr table_name ++ "s"
    pure (relationship_name ++ " = relationship('" ++ parent_class ++
      "', back_populates='" ++ back_populates ++ "')")

/-- `generate_relationships(table_name, inspector)`: empty for association
tables, otherwise one relation string per foreign key in order. -/
def generate_relationships (s : Schema) (table_name : String) : Option (List String) :=
  let fks := get_foreign_keys s table_name
  if is_association_table s table_name fks then pure []
  else fks.mapM (relationship_line s table_name)

/-! ## Global many-to-many pass (`generate_many_to_many_relationships`) -/

/-- Append `v` to the list stored under `k`, creating the entry when
absent; Python's `if k not in d: d[k] = []` followed by `d[k].append(v)`
on an insertion-ordered dict. -/
def dictAppend (d : List (String × List String)) (k : String) (v : String) :
    List (String × List String) :=
  match d with
  | [] => [(k, [v])]
  | (k2, vs) :: rest =>
    if k2 == k then (k2, vs ++ [v]) :: rest
    else (k2, vs) :: dictAppend rest k v

/-- Dict lookup: `d[k]` when `k in d`. -/
def dictGet (d : List (String × List String)) (k : String) : Option (List String) :=
  (d.find? (fun kv => kv.1 == k)).map (·.2)

/-- The total number of relation declarations stored in the dict. -/
def dictTotal (d : List (String × List String)) : Nat :=
  (d.map (fun kv => kv.2.length)).sum

/-- The relation string the many-to-many pass builds:
`f"{t_other}s = relationship('{cls_other}', secondary='{assoc}', back_populates='{t_self}s')"`. -/
def m2m_rel (t_other cls_other assoc t_self : String) : String :=
  t_other ++ "s = relationship('" ++ cls_other ++ "', secondary='" ++ assoc ++
    "', back_populates='" ++ t_self ++ "s')"

/-- The loop body of `generate_many_to_many_relationships` for one table:
when it is an association table with foreign keys `fk1, fk2` referring to
`table1, table2`, append the `table2`-targeting declaration to `table1`'s
list and the symmetric one to `table2`'s; otherwise leave the dict as is. -/
def m2m_step (s : Schema) (m2m : List (String × List String)) (table : String) :
    Option (List (String × List String)) :=
  let fks := get_foreign_keys s table
  match fks, is_association_table s table fks with
  | [fk1, fk2], true => do
    let table1 := fk1.referred_table
    let table2 := fk2.referred_table
    let class1 ← camel_case table1
    let class2 ← camel_case table2
    let rel1 := m2m_rel table2 class2 table table1
    let rel2 := m2m_rel table1 class1 table table2
    pure (dictAppend (dictAppend m2m table1 rel1) table2 rel2)
  | _, _ => pure m2m

/-- `generate_many_to_many_relationships(inspector)`: fold `m2m_step` over
the schema's tables in enumeration order, starting from the empty dict. -/
def generate_many_to_many_relationships (s : Schema) :
    Option (List (String × List String)) :=
  (get_table_names s).foldlM (m2m_step s) []

/-! ## Model Emitter (`generate_model`, `generate_models_content`) -/

/-- One column line of an entity-class body, exactly as `generate_model`
formats it. -/
def col_line (col : Col) : String :=
  let nullable := if col.nullable then "" else ", nullable=False"
  let pk := if col.primary_key then ", primary_key=True" else ""
  let fk :=
    match col.foreign_key with
    | some target => ", ForeignKey('" ++ target ++ "')"
    | none => ""
  "    " ++ col.name ++ " = Column(" ++ typeName (get_column_type col.typ) ++
    nullable ++ pk ++ fk ++ ")"

/-- `generate_model(table_name, cols, relations)`: the class header, one
line per column, a blank line, then one indented line per relation. -/
def generate_model (table_name : String) (cols : List Col) (relations : List String) :
    Option String := do
  let class_name ← camel_case table_name
  pure ("class " ++ class_name ++ "(Base):\n" ++
    "    __tablename__ = '" ++ table_name ++ "'\n\n" ++
    String.join (cols.map (fun c => col_line c ++ "\n")) ++
    "\n" ++
    String.join (relations.map (fun r => "    " ++ r ++ "\n")))

/-- `write(text)` of `generate_models_content` appends a newline. -/
def wl (t : String) : String :=
  t ++ "\n"

/-- One `Column(...)` line of an association-table block. -/
def assoc_col_line (col : Col) : String :=
  let fk :=
    match col.foreign_key with
    | some target => ", ForeignKey('" ++ target ++ "')"
    | none => ""
  "    Column('" ++ col.name ++ "', " ++ typeName (get_column_type col.typ) ++ fk ++ "),"

/-- The `Table(...)` block emitted for an association table. -/
def assoc_table_block (table : String) (columns : List Col) : String :=
  wl (table ++ " = Table(") ++
  wl ("    '" ++ table ++ "', Base.metadata,") ++
  String.join (columns.map (fun c => wl (assoc_col_line c))) ++
  wl ")\n"

/-- The loop body of `generate_models_content` for one table: the
association-table block, or the entity class with its per-table relations
extended by the table's many-to-many declarations when present. -/
def emit_table (s : Schema) (m2m : List (String × List String)) (table : String) :
    Option String :=
  let columns := get_columns s table
  let foreign_keys := get_foreign_keys s table
  if is_association_table s table foreign_keys then
    pure (assoc_table_block table columns)
  else do
    let rels ← generate_relationships s table
    let rels :=
      match dictGet m2m table with
      | some extra => rels ++ extra
      | none => rels
    let model ← generate_model table columns rels
    pure (wl model ++ wl "\n")

/-- The fixed output prefix: the two import lines, the declarative-base
import, and the `Base` binding, with the blank lines `write` produces. -/
def preamble : String :=
  "from sqlalchemy import Column, Integer, String, Float, DateTime, ForeignKey, Table\n" ++
  "from sqlalchemy.orm import relationship\n" ++
  "from sqlalchemy.ext.declarative import declarative_base\n\n" ++
  "Base = declarative_base()\n\n"

/-- `generate_models_content(inspector)`: the preamble, then the per-table
blocks appended in the inspector's table-enumeration order. -/
def generate_models_content (s : Schema) : Option String := do
  let m2m ← generate_many_to_many_relationships s
  (get_table_names s).foldlM
    (fun acc table => do
      let block ← emit_table s m2m table
      pure (acc ++ block))
    preamble

/-! ## Spec-side Type Mapper

The specification describes the Type Mapper in terms of logical type
categories (Integer, Text, Float, Timestamp) rather than the SQLAlchemy
class names the code uses; `resolve_type_spec` is written from the spec's
words for the refinement comparison with `get_column_type`. -/

/-- The spec's logical type categories. -/
inductive LogicalType where
  | Integer
  | Text
  | Float
  | Timestamp
deriving DecidableEq, Repr

/-- The category each SQLAlchemy class stands for: `String` renders the
Text category and `DateTime` the Timestamp category. -/
def categoryOf : SAType → LogicalType
  | .Integer => .Integer
  | .String => .Text
  | .Float => .Float
  | .DateTime => .Timestamp

/-- Modelled from the spec: the fixed, ordered table of substring keys of
section 4.1 (integer/bigint/smallint to Integer; varchar/text to Text;
float/real/numeric to Float; datetime/timestamp/date to Timestamp). -/
def spec_type_table : List (String × LogicalType) :=
  [("integer", .Integer), ("bigint", .Integer), ("smallint", .Integer),
   ("varchar", .Text), ("text", .Text),
   ("float", .Float), ("real", .Float), ("numeric", .Float),
   ("datetime", .Timestamp), ("timestamp", .Timestamp), ("date", .Timestamp)]

/-- Modelled from the spec: `resolve_type` of section 4.1 — lower-case the
input, first-match-wins over the insertion order of the key table, default
Text when no key is a substring. -/
def resolve_type_spec (raw : String) : LogicalType :=
  let t := lowerStr raw
  ((spec_type_table.find? (fun kv => strContains t kv.1)).map (·.2)).getD .Text

/-! ## Sample schemas

Concrete schema snapshots used to instantiate the theorems: the
users/posts/tags/post_tags shape of the repository's test fixture, a
variant with capitalized table names, and a variant with a second
association table linking the same two entity tables. -/

/-- `users(id PK, name)`. -/
def usersT : Table :=
  ⟨"users",
   [⟨"id", "INTEGER", false, true, none⟩, ⟨"name", "VARCHAR", true, false, none⟩],
   ["id"], []⟩

/-- `posts(id PK, title, user_id FK users.id)`. -/
def postsT : Table :=
  ⟨"posts",
   [⟨"id", "INTEGER", false, true, none⟩, ⟨"title", "VARCHAR", true, false, none⟩,
    ⟨"user_id", "INTEGER", true, false, some "users.id"⟩],
   ["id"], [⟨["user_id"], "users", ["id"]⟩]⟩

/-- `tags(id PK, name)`. -/
def tagsT : Table :=
  ⟨"tags",
   [⟨"id", "INTEGER", false, true, none⟩, ⟨"name", "VARCHAR", true, false, none⟩],
   ["id"], []⟩

/-- `post_tags(post_id FK posts.id PK, tag_id FK tags.id PK)`. -/
def postTagsT : Table :=
  ⟨"post_tags",
   [⟨"post_id", "INTEGER", false, true, some "posts.id"⟩,
    ⟨"tag_id", "INTEGER", false, true, some "tags.id"⟩],
   ["post_id", "tag_id"],
   [⟨["post_id"], "posts", ["id"]⟩, ⟨["tag_id"], "tags", ["id"]⟩]⟩

/-- The test fixture's schema. -/
def sampleSchema : Schema :=
  [usersT, postsT, tagsT, postTagsT]

/-- A second association table between the same two entity tables. -/
def postTags2T : Table :=
  ⟨"post_tags2",
   [⟨"post_id", "INTEGER", false, true, some "posts.id"⟩,
    ⟨"tag_id", "INTEGER", false, true, some "tags.id"⟩],
   ["post_id", "tag_id"],
   [⟨["post_id"], "posts", ["id"]⟩, ⟨["tag_id"], "tags", ["id"]⟩]⟩

/-- The fixture schema with a duplicate association table appended. -/
def dupSchema : Schema :=
  [usersT, postsT, tagsT, postTagsT, postTags2T]

/-- `PostTbl(id PK)`: an entity table whose declared name is capitalized. -/
def capPostsT : Table :=
  ⟨"PostTbl", [⟨"id", "INTEGER", false, true, none⟩], ["id"], []⟩

/-- `TagTbl(id PK)`: an entity table whose declared name is capitalized. -/
def capTagsT : Table :=
  ⟨"TagTbl", [⟨"id", "INTEGER", false, true, none⟩], ["id"], []⟩

/-- An association table linking the two capitalized tables. -/
def capLinkT : Table :=
  ⟨"LinkTbl",
   [⟨"post_id", "INTEGER", false, true, some "PostTbl.id"⟩,
    ⟨"tag_id", "INTEGER", false, true, some "TagTbl.id"⟩],
   ["post_id", "tag_id"],
   [⟨["post_id"], "PostTbl", ["id"]⟩, ⟨["tag_id"], "TagTbl", ["id"]⟩]⟩

/-- A schema whose table names contain upper-case letters. -/
def capSchema : Schema :=
  [capPostsT, capTagsT, capLinkT]

/-! ## Theorems -/

/-- C7: a schema with zero tables makes the many-to-many resolution yield
an empty mapping rather than an error, and the full generation pass
produce exactly the fixed preamble (imports block and declarative base)
with no class or table blocks. -/
theorem empty_schema_yields_preamble_only :
    generate_many_to_many_relationships ([] : Schema) = some [] ∧
    generate_models_content ([] : Schema) = some preamble :=
  ⟨rfl, rfl⟩

/-- C4: the type mapper is total (it is a plain function, never `none`),
and it refines the spec's `resolve_type`: lower-case the input, scan the
fixed ordered key table first-match-wins, default to the Text category
(rendered `String`) when no key is a substring. -/
theorem get_column_type_refines_spec (raw : String) :
    categoryOf (get_column_type raw) = resolve_type_spec raw := by
  unfold get_column_type resolve_type_spec
  dsimp only
  have hmap : spec_type_table =
      type_map.map (fun kv => (kv.1, categoryOf kv.2)) := rfl
  rw [hmap, List.find?_map]
  have hp : ((fun kv => strContains (lowerStr raw) kv.1) ∘
        (fun kv : String × SAType => (kv.1, categoryOf kv.2))) =
      (fun kv : String × SAType => strContains (lowerStr raw) kv.1) := rfl
  rw [hp]
  cases type_map.find? (fun kv => strContains (lowerStr raw) kv.1) with
  | none => rfl
  | some kv => rfl

/-- C5 counterexample: the raw type `point` contains `int` (lower-cased)
as a substring, no key of the fixed table matches it at all — so no
earlier-keyed substring matches either — and yet the mapper does not
return Integer (it falls through to the `String` default). -/
theorem point_contains_int_not_integer :
    strContains (lowerStr "point") "int" = true ∧
    (∀ kv ∈ type_map, strContains (lowerStr "point") kv.1 = false) ∧
    get_column_type "point" ≠ SAType.Integer :=
  ⟨rfl, by decide, by decide⟩

/-- C5 amended: for every type string containing one of the integer-family
keys `integer`, `bigint` or `smallint` (case-insensitive) as a substring,
the mapper returns Integer — these keys are the first three entries of the
table, and every earlier entry also maps to Integer, so no earlier match
can yield anything else. -/
theorem int_family_resolves_integer (raw : String)
    (h : strContains (lowerStr raw) "integer" = true ∨
         strContains (lowerStr raw) "bigint" = true ∨
         strContains (lowerStr raw) "smallint" = true) :
    get_column_type raw = SAType.Integer := by
  unfold get_column_type type_map
  dsimp only
  cases h1 : strContains (lowerStr raw) "integer" with
  | true => simp [List.find?, h1]
  | false =>
    cases h2 : strContains (lowerStr raw) "bigint" with
    | true => simp [List.find?, h1, h2]
    | false =>
      cases h3 : strContains (lowerStr raw) "smallint" with
      | true => simp [List.find?, h1, h2, h3]
      | false => simp [h1, h2, h3] at h

/-- C5 witness: `BIGINT` resolves to Integer by the amended theorem. -/
theorem int_family_witness :
    get_column_type "BIGINT" = SAType.Integer :=
  int_family_resolves_integer "BIGINT" (Or.inr (Or.inl rfl))

/-! ### Character-level facts for the identifier normalizer

`Char.toUpper`/`Char.toLower` act on code points; these lemmas restate the
relevant facts in terms of `Char.toNat` so that `omega` can finish. -/

lemma toNat_le_of_val_le {c : Char} {m : Nat} (hm : m < UInt32.size)
    (h : c.val ≤ UInt32.ofNat m) : c.toNat ≤ m :=
  UInt32.toNat_le_of_le hm h

lemma le_toNat_of_val_ge {c : Char} {m : Nat} (hm : m < UInt32.size)
    (h : UInt32.ofNat m ≤ c.val) : m ≤ c.toNat :=
  UInt32.le_toNat_of_le hm h

lemma val_le_of_toNat_le {c : Char} {m : Nat} (hm : m < UInt32.size)
    (h : c.toNat ≤ m) : c.val ≤ UInt32.ofNat m := by
  by_contra hc
  have := UInt32.lt_toNat_of_lt hm (UInt32.not_le.mp hc)
  have hct : c.toNat = c.val.toNat := rfl
  omega

lemma val_ge_of_toNat_ge {c : Char} {m : Nat} (hm : m < UInt32.size)
    (h : m ≤ c.toNat) : UInt32.ofNat m ≤ c.val := by
  by_contra hc
  have := UInt32.toNat_lt_of_lt hm (UInt32.not_le.mp hc)
  have hct : c.toNat = c.val.toNat := rfl
  omega

lemma isUpper_toNat {c : Char} : c.isUpper = true ↔ 65 ≤ c.toNat ∧ c.toNat ≤ 90 := by
  simp only [Char.isUpper, Bool.and_eq_true, decide_eq_true_eq, ge_iff_le]
  constructor
  · rintro ⟨h1, h2⟩
    exact ⟨le_toNat_of_val_ge (by norm_num [UInt32.size]) h1,
      toNat_le_of_val_le (by norm_num [UInt32.size]) h2⟩
  · rintro ⟨h1, h2⟩
    exact ⟨val_ge_of_toNat_ge (by norm_num [UInt32.size]) h1,
      val_le_of_toNat_le (by norm_num [UInt32.size]) h2⟩

lemma isLower_toNat {c : Char} : c.isLower = true ↔ 97 ≤ c.toNat ∧ c.toNat ≤ 122 := by
  simp only [Char.isLower, Bool.and_eq_true, decide_eq_true_eq, ge_iff_le]
  constructor
  · rintro ⟨h1, h2⟩
    exact ⟨le_toNat_of_val_ge (by norm_num [UInt32.size]) h1,
      toNat_le_of_val_le (by norm_num [UInt32.size]) h2⟩
  · rintro ⟨h1, h2⟩
    exact ⟨val_ge_of_toNat_ge (by norm_num [UInt32.size]) h1,
      val_le_of_toNat_le (by norm_num [UInt32.size]) h2⟩

lemma isAlpha_toNat {c : Char} :
    c.isAlpha = true ↔ (65 ≤ c.toNat ∧ c.toNat ≤ 90) ∨ (97 ≤ c.toNat ∧ c.toNat ≤ 122) := by
  simp only [Char.isAlpha, Bool.or_eq_true_iff, isUpper_toNat, isLower_toNat]

lemma toNat_ofNat_valid {n : Nat} (h : n < 55296) : (Char.ofNat n).toNat = n := by
  unfold Char.ofNat
  rw [dif_pos (Or.inl h)]
  simp [Char.ofNatAux, Char.toNat, UInt32.toNat]

lemma toUpper_toNat_of_lower {c : Char} (h : 97 ≤ c.toNat ∧ c.toNat ≤ 122) :
    c.toUpper.toNat = c.toNat - 32 := by
  unfold Char.toUpper
  rw [if_pos h, toNat_ofNat_valid (by omega)]

lemma toUpper_eq_self {c : Char} (h : ¬(97 ≤ c.toNat ∧ c.toNat ≤ 122)) :
    c.toUpper = c := by
  unfold Char.toUpper
  rw [if_neg h]

lemma toLower_toNat_of_upper {c : Char} (h : 65 ≤ c.toNat ∧ c.toNat ≤ 90) :
    c.toLower.toNat = c.toNat + 32 := by
  unfold Char.toLower
  rw [if_pos h, toNat_ofNat_valid (by omega)]

lemma toLower_eq_self {c : Char} (h : ¬(65 ≤ c.toNat ∧ c.toNat ≤ 90)) :
    c.toLower = c := by
  unfold Char.toLower
  rw [if_neg h]

lemma toUpper_of_isUpper {c : Char} (h : c.isUpper = true) : c.toUpper = c := by
  have := isUpper_toNat.mp h
  exact toUpper_eq_self (by omega)

lemma toLower_of_isLower {c : Char} (h : c.isLower = true) : c.toLower = c := by
  have := isLower_toNat.mp h
  exact toLower_eq_self (by omega)

lemma ne_of_toNat_ne {c d : Char} (h : c.toNat ≠ d.toNat) : c ≠ d :=
  fun he => h (he ▸ rfl)

lemma title_char_ne_space {c : Char} (h : c.isAlpha = true) (b : Bool) :
    (if b then c.toLower else c.toUpper) ≠ ' ' := by
  have ha := isAlpha_toNat.mp h
  have hsp : (' ' : Char).toNat = 32 := rfl
  cases b with
  | true =>
    rw [if_pos rfl]
    apply ne_of_toNat_ne
    rcases ha with hu | hl
    · rw [toLower_toNat_of_upper hu]
      omega
    · rw [toLower_eq_self (by omega)]
      omega
  | false =>
    rw [if_neg (by decide)]
    apply ne_of_toNat_ne
    rcases ha with hu | hl
    · rw [toUpper_eq_self (by omega)]
      omega
    · rw [toUpper_toNat_of_lower hl]
      omega

lemma ne_space_of_isAlpha {c : Char} (h : c.isAlpha = true) : c ≠ ' ' := by
  have := isAlpha_toNat.mp h
  have hsp : (' ' : Char).toNat = 32 := rfl
  exact ne_of_toNat_ne (by omega)

lemma isSep_eq_false_of_isAlpha {c : Char} (h : c.isAlpha = true) : isSep c = false := by
  cases hs : isSep c with
  | false => rfl
  | true =>
    exfalso
    unfold isSep at hs
    rcases Bool.or_eq_true_iff.mp hs with h1 | h1
    · rw [eq_of_beq h1] at h
      exact absurd h (by decide)
    · rw [eq_of_beq h1] at h
      exact absurd h (by decide)

lemma isAlpha_of_isUpper {c : Char} (h : c.isUpper = true) : c.isAlpha = true := by
  simp [Char.isAlpha, h]

lemma isAlpha_of_isLower {c : Char} (h : c.isLower = true) : c.isAlpha = true := by
  simp [Char.isAlpha, h]

lemma subSepsAux_no_seps {l : List Char} (h : ∀ x ∈ l, isSep x = false) (b : Bool) :
    subSepsAux b l = l := by
  induction l generalizing b with
  | nil => rfl
  | cons c rest ih =>
    have hc := h c (List.mem_cons_self c rest)
    simp only [subSepsAux, hc, Bool.false_eq_true, if_false]
    rw [ih (fun x hx => h x (List.mem_cons_of_mem c hx)) false]

lemma titleAux_all_lower {l : List Char} (h : ∀ x ∈ l, x.isLower = true) :
    titleAux true l = l := by
  induction l with
  | nil => rfl
  | cons c rest ih =>
    have hc := h c (List.mem_cons_self c rest)
    simp only [titleAux, isAlpha_of_isLower hc, if_true]
    rw [toLower_of_isLower hc, ih (fun x hx => h x (List.mem_cons_of_mem c hx))]

/-- C6 amended: the normalizer is a fixed point on a capitalized single
word whose remaining characters are lower-case letters (for a word with an
interior capital, Python's `title()` lower-cases it, see the
counterexample). -/
theorem camel_case_fixes_capitalized (c : Char) (rest : List Char)
    (hc : c.isUpper = true) (hr : ∀ x ∈ rest, x.isLower = true) :
    camel_case (String.mk (c :: rest)) = some (String.mk (c :: rest)) := by
  have hca : c.isAlpha = true := isAlpha_of_isUpper hc
  have hral : ∀ x ∈ rest, x.isAlpha = true := fun x hx => isAlpha_of_isLower (hr x hx)
  have hns : ∀ x ∈ c :: rest, isSep x = false := by
    intro x hx
    rcases List.mem_cons.mp hx with he | hm
    · subst he
      exact isSep_eq_false_of_isAlpha hca
    · exact isSep_eq_false_of_isAlpha (hral x hm)
  unfold camel_case
  have hlist : (String.mk (c :: rest)).toList = c :: rest := rfl
  rw [hlist]
  unfold subSeps
  rw [subSepsAux_no_seps hns false]
  unfold title
  simp only [titleAux, hca, if_true, Bool.false_eq_true, if_false]
  rw [titleAux_all_lower hr, toUpper_of_isUpper hc]
  have hfil : (c :: rest).filter (fun x => x != ' ') = c :: rest := by
    apply List.filter_eq_self.mpr
    intro a ha
    rcases List.mem_cons.mp ha with he | hm
    · subst he
      simp [bne_iff_ne, ne_space_of_isAlpha hca]
    · simp [bne_iff_ne, ne_space_of_isAlpha (hral a hm)]
  rw [hfil]
  show some (String.mk (c.toUpper :: rest)) = some (String.mk (c :: rest))
  rw [toUpper_of_isUpper hc]

lemma titleAux_filter_empty (l : List Char) (b : Bool) :
    ((titleAux b l).filter (fun c => c != ' ') = []) ↔ (∀ c ∈ l, c = ' ') := by
  induction l generalizing b with
  | nil => simp [titleAux]
  | cons c rest ih =>
    cases hca : c.isAlpha with
    | true =>
      have hkeep : ((if b then c.toLower else c.toUpper) != ' ') = true := by
        simp [bne_iff_ne, title_char_ne_space hca b]
      simp only [titleAux, hca, if_true, List.filter, hkeep]
      constructor
      · intro h
        cases h
      · intro h
        exact absurd (h c (List.mem_cons_self c rest)) (ne_space_of_isAlpha hca)
    | false =>
      by_cases hsp : c = ' '
      · subst hsp
        have hdrop : ((' ' : Char) != ' ') = false := by decide
        simp only [titleAux, hca, Bool.false_eq_true, if_false, List.filter, hdrop]
        rw [ih false]
        constructor
        · intro h x hx
          rcases List.mem_cons.mp hx with he | hm
          · exact he
          · exact h x hm
        · intro h x hx
          exact h x (List.mem_cons_of_mem _ hx)
      · have hkeep : (c != ' ') = true := by simp [bne_iff_ne, hsp]
        simp only [titleAux, hca, Bool.false_eq_true, if_false, List.filter, hkeep]
        constructor
        · intro h
          cases h
        · intro h
          exact absurd (h c (List.mem_cons_self c rest)) hsp

lemma subSepsAux_all_space (l : List Char) (b : Bool) :
    (∀ c ∈ subSepsAux b l, c = ' ') ↔ (∀ c ∈ l, isSep c = true ∨ c = ' ') := by
  induction l generalizing b with
  | nil => simp [subSepsAux]
  | cons c rest ih =>
    cases hs : isSep c with
    | true =>
      cases b with
      | true =>
        simp only [subSepsAux, hs, if_true]
        rw [ih true]
        constructor
        · intro h x hx
          rcases List.mem_cons.mp hx with he | hm
          · subst he
            exact Or.inl hs
          · exact h x hm
        · intro h x hx
          exact h x (List.mem_cons_of_mem _ hx)
      | false =>
        simp only [subSepsAux, hs, if_true, Bool.false_eq_true, if_false]
        constructor
        · intro h x hx
          rcases List.mem_cons.mp hx with he | hm
          · subst he
            exact Or.inl hs
          · exact (ih true).mp (fun y hy => h y (List.mem_cons_of_mem _ hy)) x hm
        · intro h x hx
          rcases List.mem_cons.mp hx with he | hm
          · subst he
            rfl
          · exact (ih true).mpr (fun y hy => h y (List.mem_cons_of_mem _ hy)) x hm
    | false =>
      simp only [subSepsAux, hs, Bool.false_eq_true, if_false]
      constructor
      · intro h x hx
        rcases List.mem_cons.mp hx with he | hm
        · rw [he]
          exact Or.inr (h c (List.mem_cons_self _ _))
        · exact (ih false).mp (fun y hy => h y (List.mem_cons_of_mem _ hy)) x hm
      · intro h x hx
        rcases List.mem_cons.mp hx with he | hm
        · rw [he]
          rcases h c (List.mem_cons_self _ _) with h1 | h1
          · rw [h1] at hs
            cases hs
          · exact h1
        · exact (ih false).mpr (fun y hy => h y (List.mem_cons_of_mem _ hy)) x hm

/-- C10 amended: the normalizer fails exactly on the strings all of whose
characters are underscores, hyphens or spaces — the empty string among
them, but also non-empty separator-only names; on every input containing
at least one other character it returns a string. -/
theorem camel_case_none_iff (s : String) :
    camel_case s = none ↔ ∀ c ∈ s.toList, c = '_' ∨ c = '-' ∨ c = ' ' := by
  have key : ((title (subSeps s.toList)).filter (fun c => c != ' ') = []) ↔
      (∀ c ∈ s.toList, c = '_' ∨ c = '-' ∨ c = ' ') := by
    unfold title subSeps
    rw [titleAux_filter_empty, subSepsAux_all_space]
    constructor
    · intro h c hc
      rcases h c hc with h1 | h1
      · unfold isSep at h1
        rcases Bool.or_eq_true_iff.mp h1 with h2 | h2
        · exact Or.inl (eq_of_beq h2)
        · exact Or.inr (Or.inl (eq_of_beq h2))
      · exact Or.inr (Or.inr h1)
    · intro h c hc
      rcases h c hc with h1 | h1 | h1
      · subst h1
        exact Or.inl rfl
      · subst h1
        exact Or.inl rfl
      · exact Or.inr h1
  unfold camel_case
  cases ht : (title (subSeps s.toList)).filter (fun c => c != ' ') with
  | nil =>
    simp only [ht]
    constructor
    · intro _
      exact key.mp ht
    · intro _
      trivial
  | cons c t =>
    simp only [ht]
    constructor
    · intro h
      cases h
    · intro h
      have := key.mpr h
      rw [this] at ht
      cases ht

/-- C6 counterexample: `ApiKey` is a PascalCase single word (no
underscores or hyphens, leading capital), yet the normalizer lower-cases
its interior capital: `camel_case "ApiKey"` is `Apikey`, not `ApiKey`. -/
theorem camel_case_pascal_not_fixed :
    camel_case "ApiKey" = some "Apikey" ∧ ("Apikey" : String) ≠ "ApiKey" :=
  ⟨rfl, by decide⟩

/-- C6 witness: `Posts` — a capitalized word with lower-case tail — is a
fixed point of the normalizer, by the amended theorem. -/
theorem camel_case_capitalized_witness :
    camel_case "Posts" = some "Posts" :=
  camel_case_fixes_capitalized 'P' ['o', 's', 't', 's'] (by decide) (by decide)

/-- C10 counterexample: the non-empty input `_` also fails — the
intermediate string (separators to one space, spaces stripped) is empty,
so the `s[0]` index raises, refuting totality on all non-empty inputs. -/
theorem camel_case_underscore_none :
    camel_case "_" = none ∧ ("_" : String) ≠ "" :=
  ⟨rfl, by decide⟩

/-- C10 witness: instantiating the amended theorem at `_-` shows a
concrete separator-only string on which the normalizer fails. -/
theorem camel_case_none_iff_witness :
    ∀ c ∈ ("_-" : String).toList, c = '_' ∨ c = '-' ∨ c = ' ' :=
  (camel_case_none_iff "_-").mp rfl

/-- C4 witness: the refinement theorem instantiated at `VARCHAR(255)`. -/
theorem get_column_type_refines_witness :
    categoryOf (get_column_type "VARCHAR(255)") = resolve_type_spec "VARCHAR(255)" :=
  get_column_type_refines_spec "VARCHAR(255)"


/-- C1: the classifier marks a table an association table iff it has
exactly two foreign keys and the union of all foreign-key constrained
columns equals exactly the primary-key column set; one foreign key, three
or more, or a primary key not covered by the foreign-key columns all make
it an entity table. -/
theorem is_association_table_iff (s : Schema) (n : String) (fks : List FK) :
    is_association_table s n fks = true ↔
      fks.length = 2 ∧
      ∀ c, (c ∈ fks.flatMap (·.constrained_columns) ↔ c ∈ get_pk_columns s n) := by
  unfold is_association_table setEqCL
  by_cases hl : fks.length = 2
  · rw [if_neg (by simp [hl])]
    simp only [Bool.and_eq_true, List.all_eq_true, hl, true_and]
    constructor
    · rintro ⟨h1, h2⟩ c
      constructor
      · intro hc
        have := h2 c hc
        simpa using this
      · intro hc
        have := h1 c hc
        simpa using this
    · intro h
      constructor
      · intro c hc
        simpa using (h c).mpr hc
      · intro c hc
        simpa using (h c).mp hc
  · rw [if_pos (by simp [hl])]
    simp [hl]

/-- C1 witness: the classifier theorem instantiated at the fixture's
`post_tags` table. -/
theorem is_association_table_iff_witness :
    (get_foreign_keys sampleSchema "post_tags").length = 2 ∧
    ∀ c, (c ∈ (get_foreign_keys sampleSchema "post_tags").flatMap (·.constrained_columns) ↔
      c ∈ get_pk_columns sampleSchema "post_tags") :=
  (is_association_table_iff sampleSchema "post_tags"
    (get_foreign_keys sampleSchema "post_tags")).mp rfl

lemma mapM_option_get? {α β : Type} (f : α → Option β) :
    ∀ (l : List α) (res : List β), l.mapM f = some res →
      ∀ i x, l.get? i = some x → res.get? i = f x := by
  intro l
  induction l with
  | nil =>
    intro res h i x hx
    cases i <;> cases hx
  | cons a as ih =>
    intro res h i x hx
    rw [List.mapM_cons] at h
    cases hfa : f a with
    | none =>
      rw [hfa] at h
      cases h
    | some b =>
      rw [hfa] at h
      cases hms : as.mapM f with
      | none =>
        rw [hms] at h
        cases h
      | some bs =>
        rw [hms] at h
        have h2 : b :: bs = res := by
          simpa using h
        subst h2
        cases i with
        | zero =>
          cases hx
          simp [hfa]
        | succ j =>
          simp only [List.get?_cons_succ] at hx ⊢
          exact ih bs hms j x hx

/-- C3: for an entity table's foreign key, the emitted relation at the
foreign key's position is the bare `relationship` (many-to-one) exactly
when the key constrains a single column outside the table's own primary
key; when the single column is inside the primary key, or the key spans
any other number of columns, the declaration carries
`back_populates` named by the referencing table's lower-cased name with
`s` appended. -/
theorem generate_relationships_spec (s : Schema) (n : String) (rels : List String)
    (hassoc : is_association_table s n (get_foreign_keys s n) = false)
    (hres : generate_relationships s n = some rels)
    (i : Nat) (fk : FK) (hfk : (get_foreign_keys s n).get? i = some fk)
    (cls : String) (hcls : camel_case fk.referred_table = some cls) :
    (∀ c, fk.constrained_columns = [c] → c ∉ get_pk_columns s n →
      rels.get? i =
        some (lowerStr fk.referred_table ++ " = relationship('" ++ cls ++ "')")) ∧
    (∀ c, fk.constrained_columns = [c] → c ∈ get_pk_columns s n →
      rels.get? i =
        some (lowerStr fk.referred_table ++ " = relationship('" ++ cls ++
          "', back_populates='" ++ (lowerStr n ++ "s") ++ "')")) ∧
    (fk.constrained_columns.length ≠ 1 →
      rels.get? i =
        some (lowerStr fk.referred_table ++ " = relationship('" ++ cls ++
          "', back_populates='" ++ (lowerStr n ++ "s") ++ "')")) := by
  unfold generate_relationships at hres
  simp only [hassoc, Bool.false_eq_true, if_false] at hres
  have hline : rels.get? i = relationship_line s n fk :=
    mapM_option_get? (relationship_line s n) (get_foreign_keys s n) rels hres i fk hfk
  unfold relationship_line at hline
  simp only [hcls, Option.some_bind] at hline
  refine ⟨?bare, ?backpk, ?backlen⟩
  · intro c hc hnotpk
    rw [hc] at hline
    have hcont : (get_pk_columns s n).contains c = false := by
      simpa using hnotpk
    rw [hline]
    simp [hcont, hnotpk]
  · intro c hc hpk
    rw [hc] at hline
    have hcont : (get_pk_columns s n).contains c = true := by
      simpa using hpk
    rw [hline]
    simp [hcont, hpk]
  · intro hlen
    rw [hline]
    cases hcc : fk.constrained_columns with
    | nil => simp
    | cons c rest =>
      cases rest with
      | nil =>
        rw [hcc] at hlen
        simp at hlen
      | cons d rest2 => simp

/-- C3 witness: the fixture's `posts.user_id` foreign key yields the bare
many-to-one declaration. -/
theorem generate_relationships_spec_witness :
    generate_relationships sampleSchema "posts" = some ["users = relationship('Users')"] ∧
    (["users = relationship('Users')"] : List String).get? 0 =
      some (lowerStr "users" ++ " = relationship('" ++ "Users" ++ "')") :=
  ⟨rfl,
   (generate_relationships_spec sampleSchema "posts" ["users = relationship('Users')"]
     rfl rfl 0 ⟨["user_id"], "users", ["id"]⟩ rfl "Users" rfl).1 "user_id" rfl (by decide)⟩

lemma dictGet_dictAppend_self (d : List (String × List String)) (k : String) (v : String) :
    dictGet (dictAppend d k v) k = some ((dictGet d k).getD [] ++ [v]) := by
  induction d with
  | nil => simp [dictAppend, dictGet, List.find?]
  | cons kv rest ih =>
    obtain ⟨k2, vs⟩ := kv
    by_cases h : k2 = k
    · subst h
      simp [dictAppend, dictGet, List.find?]
    · have hb : (k2 == k) = false := by
        simpa using h
      simp only [dictAppend, hb, Bool.false_eq_true, if_false]
      simp only [dictGet, List.find?, hb] at ih ⊢
      exact ih

lemma dictGet_dictAppend_ne (d : List (String × List String)) (k v : String)
    (k2 : String) (h : k2 ≠ k) :
    dictGet (dictAppend d k v) k2 = dictGet d k2 := by
  induction d with
  | nil =>
    have hb : (k == k2) = false := by
      simpa using (Ne.symm h)
    simp [dictAppend, dictGet, List.find?, hb]
  | cons kv rest ih =>
    obtain ⟨k3, vs⟩ := kv
    by_cases h3 : k3 = k
    · have hb : (k3 == k) = true := by simp [h3]
      have hne : k3 ≠ k2 := by
        rw [h3]
        exact Ne.symm h
      have hb2 : (k3 == k2) = false := by
        simpa using hne
      simp [dictAppend, hb, dictGet, List.find?, hb2]
    · have hb : (k3 == k) = false := by
        simpa using h3
      simp only [dictAppend, hb, Bool.false_eq_true, if_false]
      by_cases h32 : k3 = k2
      · simp [dictGet, List.find?, h32]
      · have hb2 : (k3 == k2) = false := by
          simpa using h32
        simp only [dictGet, List.find?, hb2] at ih ⊢
        exact ih

lemma mem_dictAppend (d : List (String × List String)) (k v k2 : String) (x : String)
    (hx : x ∈ (dictGet d k2).getD []) :
    x ∈ (dictGet (dictAppend d k v) k2).getD [] := by
  by_cases h : k2 = k
  · subst h
    rw [dictGet_dictAppend_self]
    exact List.mem_append_left _ hx
  · rw [dictGet_dictAppend_ne d k v k2 h]
    exact hx

lemma mem_dictAppend_self (d : List (String × List String)) (k v : String) :
    v ∈ (dictGet (dictAppend d k v) k).getD [] := by
  rw [dictGet_dictAppend_self]
  exact List.mem_append_right _ (List.mem_singleton.mpr rfl)

lemma m2m_step_mono (s : Schema) (table : String)
    (m2m m2m' : List (String × List String))
    (h : m2m_step s m2m table = some m2m') (k x : String)
    (hx : x ∈ (dictGet m2m k).getD []) :
    x ∈ (dictGet m2m' k).getD [] := by
  unfold m2m_step at h
  dsimp only at h
  split at h
  · rcases Option.bind_eq_some.mp h with ⟨cls1, hc1, h⟩
    rcases Option.bind_eq_some.mp h with ⟨cls2, hc2, h⟩
    have hX := Option.some.inj h
    rw [← hX]
    exact mem_dictAppend _ _ _ _ _ (mem_dictAppend _ _ _ _ _ hx)
  · have h2 : m2m = m2m' := by
      simpa using h
    rw [← h2]
    exact hx

lemma foldlM_m2m_mono (s : Schema) (tables : List String) :
    ∀ (m2m m2m' : List (String × List String)),
      tables.foldlM (m2m_step s) m2m = some m2m' →
      ∀ k x, x ∈ (dictGet m2m k).getD [] → x ∈ (dictGet m2m' k).getD [] := by
  induction tables with
  | nil =>
    intro m2m m2m' h k x hx
    have h2 : m2m = m2m' := by
      simpa using h
    rw [← h2]
    exact hx
  | cons t ts ih =>
    intro m2m m2m' h k x hx
    rw [List.foldlM_cons] at h
    cases hstep : m2m_step s m2m t with
    | none =>
      rw [hstep] at h
      cases h
    | some mid =>
      rw [hstep] at h
      have h2 : ts.foldlM (m2m_step s) mid = some m2m' := by
        simpa using h
      exact ih mid m2m' h2 k x (m2m_step_mono s t m2m mid hstep k x hx)

lemma m2m_pair_mem (s : Schema) (pre post : List String) (n : String)
    (fk1 fk2 : FK) (cls1 cls2 : String) (m2m : List (String × List String))
    (htables : get_table_names s = pre ++ n :: post)
    (hfks : get_foreign_keys s n = [fk1, fk2])
    (hassoc : is_association_table s n (get_foreign_keys s n) = true)
    (hc1 : camel_case fk1.referred_table = some cls1)
    (hc2 : camel_case fk2.referred_table = some cls2)
    (hres : generate_many_to_many_relationships s = some m2m) :
    m2m_rel fk2.referred_table cls2 n fk1.referred_table ∈
      (dictGet m2m fk1.referred_table).getD [] ∧
    m2m_rel fk1.referred_table cls1 n fk2.referred_table ∈
      (dictGet m2m fk2.referred_table).getD [] := by
  unfold generate_many_to_many_relationships at hres
  rw [htables, List.foldlM_append] at hres
  rcases Option.bind_eq_some.mp hres with ⟨m2m0, hpre, hres⟩
  rw [List.foldlM_cons] at hres
  rcases Option.bind_eq_some.mp hres with ⟨mid, hstep0, hres⟩
  have hstep : m2m_step s m2m0 n =
      some (dictAppend
        (dictAppend m2m0 fk1.referred_table
          (m2m_rel fk2.referred_table cls2 n fk1.referred_table))
        fk2.referred_table
        (m2m_rel fk1.referred_table cls1 n fk2.referred_table)) := by
    unfold m2m_step
    rw [hfks] at hassoc ⊢
    dsimp only
    rw [hassoc]
    simp [hc1, hc2]
  rw [hstep] at hstep0
  have hmid := Option.some.inj hstep0
  rw [← hmid] at hres
  constructor
  · refine foldlM_m2m_mono s post _ m2m hres _ _ ?m1
    apply mem_dictAppend
    exact mem_dictAppend_self _ _ _
  · refine foldlM_m2m_mono s post _ m2m hres _ _ ?m2
    exact mem_dictAppend_self _ _ _

lemma m2m_rel_secondary_inj {t c b a1 a2 : String}
    (h : m2m_rel t c a1 b = m2m_rel t c a2 b) : a1 = a2 := by
  unfold m2m_rel at h
  have h2 := congrArg String.data h
  simp only [String.data_append] at h2
  have h3 := List.append_cancel_right h2
  have h4 := List.append_cancel_right h3
  have h5 := List.append_cancel_right h4
  have h6 := List.append_cancel_left h5
  exact String.ext h6



lemma dictTotal_dictAppend (d : List (String × List String)) (k v : String) :
    dictTotal (dictAppend d k v) = dictTotal d + 1 := by
  induction d with
  | nil => simp [dictAppend, dictTotal]
  | cons kv rest ih =>
    obtain ⟨k2, vs⟩ := kv
    by_cases h : k2 = k
    · have hb : (k2 == k) = true := by simp [h]
      simp [dictAppend, hb, dictTotal]
      omega
    · have hb : (k2 == k) = false := by simpa using h
      simp only [dictAppend, hb, Bool.false_eq_true, if_false]
      simp only [dictTotal, List.map_cons, List.sum_cons] at ih ⊢
      omega

lemma assoc_fks_len2 {s : Schema} {t : String} {fks : List FK}
    (h : is_association_table s t fks = true) : fks.length = 2 := by
  unfold is_association_table at h
  by_cases hl : fks.length = 2
  · exact hl
  · rw [if_pos (by simpa using hl)] at h
    cases h

lemma m2m_step_total (s : Schema) (t : String) (m2m m2m' : List (String × List String))
    (h : m2m_step s m2m t = some m2m') :
    dictTotal m2m' = dictTotal m2m +
      (bif is_association_table s t (get_foreign_keys s t) then 2 else 0) := by
  unfold m2m_step at h
  dsimp only at h
  split at h
  · rename_i a b hfks heq
    rw [heq]
    rcases Option.bind_eq_some.mp h with ⟨cls1, hc1, h⟩
    rcases Option.bind_eq_some.mp h with ⟨cls2, hc2, h⟩
    rw [← Option.some.inj h, dictTotal_dictAppend, dictTotal_dictAppend]
    rfl
  · rename_i hnomatch
    have hm : m2m = m2m' := Option.some.inj h
    have hcond : is_association_table s t (get_foreign_keys s t) = false := by
      cases hc : is_association_table s t (get_foreign_keys s t) with
      | false => rfl
      | true =>
        exfalso
        have hlen := assoc_fks_len2 hc
        cases hfv : get_foreign_keys s t with
        | nil =>
          rw [hfv] at hlen
          cases hlen
        | cons a rest =>
          cases rest with
          | nil =>
            rw [hfv] at hlen
            cases hlen
          | cons b rest2 =>
            cases rest2 with
            | nil => exact hnomatch a b hfv hc
            | cons c rest3 =>
              rw [hfv] at hlen
              simp at hlen
    rw [← hm, hcond]
    rfl

lemma foldlM_m2m_total (s : Schema) (tables : List String) :
    ∀ m2m m2m' : List (String × List String),
      tables.foldlM (m2m_step s) m2m = some m2m' →
      dictTotal m2m' = dictTotal m2m +
        2 * tables.countP (fun t => is_association_table s t (get_foreign_keys s t)) := by
  induction tables with
  | nil =>
    intro m2m m2m' h
    rw [← Option.some.inj h]
    simp
  | cons t ts ih =>
    intro m2m m2m' h
    rw [List.foldlM_cons] at h
    rcases Option.bind_eq_some.mp h with ⟨mid, hstep, h⟩
    have h1 := m2m_step_total s t m2m mid hstep
    have h2 := ih mid m2m' h
    rw [List.countP_cons]
    cases hc : is_association_table s t (get_foreign_keys s t) with
    | true =>
      rw [hc] at h1
      simp only [hc, Bool.cond_true] at h1
      simp only [decide_eq_true_eq]
      rw [h2, h1]
      simp
      omega
    | false =>
      rw [hc] at h1
      simp only [Bool.cond_false] at h1
      rw [h2, h1]
      simp [hc]

/-- C2 amended: for an association table `n` whose two foreign keys refer
to `T1` and `T2`, the global pass appends to `T1` the relation named by
`T2`'s declared name (not lower-cased) with `s` appended, targeting
`camel_case T2`, with secondary `n` and back-reference `T1`'s name with
`s` appended — and the mirror declaration to `T2`; and the mapping holds
exactly two declarations per association table of the schema, so neither
half of a pair is ever emitted without its mirror. -/
theorem m2m_pass_emits_mirrored_pair (s : Schema) (pre post : List String) (n : String)
    (fk1 fk2 : FK) (cls1 cls2 : String) (m2m : List (String × List String))
    (htables : get_table_names s = pre ++ n :: post)
    (hfks : get_foreign_keys s n = [fk1, fk2])
    (hassoc : is_association_table s n (get_foreign_keys s n) = true)
    (hc1 : camel_case fk1.referred_table = some cls1)
    (hc2 : camel_case fk2.referred_table = some cls2)
    (hres : generate_many_to_many_relationships s = some m2m) :
    (fk2.referred_table ++ "s = relationship('" ++ cls2 ++ "', secondary='" ++ n ++
        "', back_populates='" ++ fk1.referred_table ++ "s')") ∈
      (dictGet m2m fk1.referred_table).getD [] ∧
    (fk1.referred_table ++ "s = relationship('" ++ cls1 ++ "', secondary='" ++ n ++
        "', back_populates='" ++ fk2.referred_table ++ "s')") ∈
      (dictGet m2m fk2.referred_table).getD [] ∧
    dictTotal m2m =
      2 * (get_table_names s).countP
        (fun t => is_association_table s t (get_foreign_keys s t)) := by
  obtain ⟨h1, h2⟩ :=
    m2m_pair_mem s pre post n fk1 fk2 cls1 cls2 m2m htables hfks hassoc hc1 hc2 hres
  refine ⟨h1, h2, ?count⟩
  have := foldlM_m2m_total s (get_table_names s) [] m2m hres
  simpa [dictTotal] using this

/-- C2 witness: the paired declarations for the fixture's `post_tags`
association table. -/
theorem m2m_pass_pair_witness :
    ("tags" ++ "s = relationship('" ++ "Tags" ++ "', secondary='" ++ "post_tags" ++
        "', back_populates='" ++ "posts" ++ "s')") ∈
      (dictGet
        [("posts", ["tagss = relationship('Tags', secondary='post_tags', back_populates='postss')"]),
         ("tags", ["postss = relationship('Posts', secondary='post_tags', back_populates='tagss')"])]
        "posts").getD [] ∧
    ("posts" ++ "s = relationship('" ++ "Posts" ++ "', secondary='" ++ "post_tags" ++
        "', back_populates='" ++ "tags" ++ "s')") ∈
      (dictGet
        [("posts", ["tagss = relationship('Tags', secondary='post_tags', back_populates='postss')"]),
         ("tags", ["postss = relationship('Posts', secondary='post_tags', back_populates='tagss')"])]
        "tags").getD [] ∧
    dictTotal
        [("posts", ["tagss = relationship('Tags', secondary='post_tags', back_populates='postss')"]),
         ("tags", ["postss = relationship('Posts', secondary='post_tags', back_populates='tagss')"])] =
      2 * (get_table_names sampleSchema).countP
        (fun t => is_association_table sampleSchema t (get_foreign_keys sampleSchema t)) :=
  m2m_pass_emits_mirrored_pair sampleSchema ["users", "posts", "tags"] [] "post_tags"
    ⟨["post_id"], "posts", ["id"]⟩ ⟨["tag_id"], "tags", ["id"]⟩ "Posts" "Tags"
    [("posts", ["tagss = relationship('Tags', secondary='post_tags', back_populates='postss')"]),
     ("tags", ["postss = relationship('Posts', secondary='post_tags', back_populates='tagss')"])]
    rfl rfl rfl rfl rfl rfl

/-- C2 counterexample: with capitalized table names the pass does not
lower-case — the declaration for `PostTbl` is named `TagTbls`, not the
`tagtbls` the claim dictates, and its back-reference is `PostTbls`, not
`posttbls`. -/
theorem m2m_pass_no_lowercase_cex :
    generate_many_to_many_relationships capSchema =
      some
        [("PostTbl", ["TagTbls = relationship('Tagtbl', secondary='LinkTbl', back_populates='PostTbls')"]),
         ("TagTbl", ["PostTbls = relationship('Posttbl', secondary='LinkTbl', back_populates='TagTbls')"])] ∧
    lowerStr "TagTbl" ++ "s" ≠ "TagTbls" ∧
    lowerStr "PostTbl" ++ "s" ≠ "PostTbls" :=
  ⟨rfl, by decide, by decide⟩

/-- C8: two distinct association tables linking the same two entity
tables contribute all four declarations — each side's list contains the
declaration from each association table, and the two declarations on one
side are distinct strings (they differ in the `secondary` name), so
nothing is de-duplicated. -/
theorem m2m_declarations_accumulate (s : Schema) (pre mid post : List String)
    (n1 n2 : String) (fk1 fk2 gk1 gk2 : FK) (cls1 cls2 : String)
    (m2m : List (String × List String))
    (htables : get_table_names s = pre ++ n1 :: (mid ++ n2 :: post))
    (hfks1 : get_foreign_keys s n1 = [fk1, fk2])
    (hfks2 : get_foreign_keys s n2 = [gk1, gk2])
    (hassoc1 : is_association_table s n1 (get_foreign_keys s n1) = true)
    (hassoc2 : is_association_table s n2 (get_foreign_keys s n2) = true)
    (hg1 : gk1.referred_table = fk1.referred_table)
    (hg2 : gk2.referred_table = fk2.referred_table)
    (hc1 : camel_case fk1.referred_table = some cls1)
    (hc2 : camel_case fk2.referred_table = some cls2)
    (hne : n1 ≠ n2)
    (hres : generate_many_to_many_relationships s = some m2m) :
    (m2m_rel fk2.referred_table cls2 n1 fk1.referred_table ∈
        (dictGet m2m fk1.referred_table).getD [] ∧
      m2m_rel fk2.referred_table cls2 n2 fk1.referred_table ∈
        (dictGet m2m fk1.referred_table).getD [] ∧
      m2m_rel fk2.referred_table cls2 n1 fk1.referred_table ≠
        m2m_rel fk2.referred_table cls2 n2 fk1.referred_table) ∧
    (m2m_rel fk1.referred_table cls1 n1 fk2.referred_table ∈
        (dictGet m2m fk2.referred_table).getD [] ∧
      m2m_rel fk1.referred_table cls1 n2 fk2.referred_table ∈
        (dictGet m2m fk2.referred_table).getD [] ∧
      m2m_rel fk1.referred_table cls1 n1 fk2.referred_table ≠
        m2m_rel fk1.referred_table cls1 n2 fk2.referred_table) := by
  have hpair1 := m2m_pair_mem s pre (mid ++ n2 :: post) n1 fk1 fk2 cls1 cls2 m2m
    htables hfks1 hassoc1 hc1 hc2 hres
  have htables2 : get_table_names s = (pre ++ n1 :: mid) ++ n2 :: post := by
    rw [htables]
    simp [List.append_assoc]
  have hc1g : camel_case gk1.referred_table = some cls1 := by
    rw [hg1]
    exact hc1
  have hc2g : camel_case gk2.referred_table = some cls2 := by
    rw [hg2]
    exact hc2
  have hpair2 := m2m_pair_mem s (pre ++ n1 :: mid) post n2 gk1 gk2 cls1 cls2 m2m
    htables2 hfks2 hassoc2 hc1g hc2g hres
  rw [hg1, hg2] at hpair2
  refine ⟨⟨hpair1.1, hpair2.1, ?ne1⟩, ⟨hpair1.2, hpair2.2, ?ne2⟩⟩
  · intro heq
    exact hne (m2m_rel_secondary_inj heq)
  · intro heq
    exact hne (m2m_rel_secondary_inj heq)

/-- C8 witness: `post_tags` and `post_tags2` both link posts and tags;
`posts` keeps both declarations. -/
theorem m2m_declarations_accumulate_witness :
    m2m_rel "tags" "Tags" "post_tags" "posts" ∈
      (dictGet
        [("posts",
          ["tagss = relationship('Tags', secondary='post_tags', back_populates='postss')",
           "tagss = relationship('Tags', secondary='post_tags2', back_populates='postss')"]),
         ("tags",
          ["postss = relationship('Posts', secondary='post_tags', back_populates='tagss')",
           "postss = relationship('Posts', secondary='post_tags2', back_populates='tagss')"])]
        "posts").getD [] ∧
    m2m_rel "tags" "Tags" "post_tags2" "posts" ∈
      (dictGet
        [("posts",
          ["tagss = relationship('Tags', secondary='post_tags', back_populates='postss')",
           "tagss = relationship('Tags', secondary='post_tags2', back_populates='postss')"]),
         ("tags",
          ["postss = relationship('Posts', secondary='post_tags', back_populates='tagss')",
           "postss = relationship('Posts', secondary='post_tags2', back_populates='tagss')"])]
        "posts").getD [] ∧
    m2m_rel "tags" "Tags" "post_tags" "posts" ≠ m2m_rel "tags" "Tags" "post_tags2" "posts" :=
  (m2m_declarations_accumulate dupSchema ["users", "posts", "tags"] [] [] "post_tags" "post_tags2"
    ⟨["post_id"], "posts", ["id"]⟩ ⟨["tag_id"], "tags", ["id"]⟩
    ⟨["post_id"], "posts", ["id"]⟩ ⟨["tag_id"], "tags", ["id"]⟩ "Posts" "Tags"
    [("posts",
      ["tagss = relationship('Tags', secondary='post_tags', back_populates='postss')",
       "tagss = relationship('Tags', secondary='post_tags2', back_populates='postss')"]),
     ("tags",
      ["postss = relationship('Posts', secondary='post_tags', back_populates='tagss')",
       "postss = relationship('Posts', secondary='post_tags2', back_populates='tagss')"])]
    rfl rfl rfl rfl rfl rfl rfl rfl rfl (by decide) rfl).1

lemma foldl_append_str (l : List String) :
    ∀ a : String, l.foldl (fun x y => x ++ y) a = a ++ l.foldl (fun x y => x ++ y) "" := by
  induction l with
  | nil =>
    intro a
    simp [String.append_empty]
  | cons x xs ih =>
    intro a
    simp only [List.foldl_cons]
    rw [ih (a ++ x), ih ("" ++ x)]
    rw [show ("" ++ x : String) = x from rfl, String.append_assoc]

lemma join_cons_str (b : String) (bs : List String) :
    String.join (b :: bs) = b ++ String.join bs := by
  unfold String.join
  simp only [List.foldl_cons]
  rw [show ("" ++ b : String) = b from rfl]
  exact foldl_append_str bs b

lemma foldlM_emit_append (s : Schema) (m2m : List (String × List String)) :
    ∀ (tables : List String) (blocks : List String) (acc : String),
      tables.mapM (emit_table s m2m) = some blocks →
      tables.foldlM
        (fun a t => do
          let b ← emit_table s m2m t
          pure (a ++ b)) acc = some (acc ++ String.join blocks) := by
  intro tables
  induction tables with
  | nil =>
    intro blocks acc h
    have h2 : ([] : List String) = blocks := Option.some.inj h
    rw [← h2]
    show some acc = some (acc ++ String.join [])
    rw [show String.join [] = "" from rfl, String.append_empty]
  | cons t ts ih =>
    intro blocks acc h
    rw [List.mapM_cons] at h
    rcases Option.bind_eq_some.mp h with ⟨b, hb, h⟩
    rcases Option.bind_eq_some.mp h with ⟨bs, hbs, h⟩
    have h2 : blocks = b :: bs := (Option.some.inj h).symm
    subst h2
    rw [List.foldlM_cons, hb]
    show List.foldlM
        (fun a t => do
          let b ← emit_table s m2m t
          pure (a ++ b)) (acc ++ b) ts = some (acc ++ String.join (b :: bs))
    rw [ih bs (acc ++ b) hbs, join_cons_str, String.append_assoc]

/-- C9: the full generation pass is a pure function of the schema
snapshot — byte-identical output for identical input — and its output is
exactly the fixed preamble followed by the per-table blocks concatenated
in the schema's declared table order, with no re-sorting. -/
theorem generation_in_declared_order (s : Schema) (m2m : List (String × List String))
    (blocks : List String)
    (hm2m : generate_many_to_many_relationships s = some m2m)
    (hblocks : (get_table_names s).mapM (emit_table s m2m) = some blocks) :
    generate_models_content s = some (preamble ++ String.join blocks) := by
  unfold generate_models_content
  rw [hm2m]
  show (get_table_names s).foldlM
      (fun acc table => do
        let block ← emit_table s m2m table
        pure (acc ++ block)) preamble = some (preamble ++ String.join blocks)
  exact foldlM_emit_append s m2m (get_table_names s) blocks preamble hblocks

/-- C9 witness: the structure theorem instantiated at a one-table
schema. -/
theorem generation_in_declared_order_witness :
    generate_models_content [usersT] =
      some (preamble ++ String.join
        ["class Users(Base):\n    __tablename__ = 'users'\n\n    id = Column(Integer, nullable=False, primary_key=True)\n    name = Column(String)\n\n\n\n\n"]) :=
  generation_in_declared_order [usersT] []
    ["class Users(Base):\n    __tablename__ = 'users'\n\n    id = Column(Integer, nullable=False, primary_key=True)\n    name = Column(String)\n\n\n\n\n"]
    rfl rfl

end ModelForge
